import Mathlib

/-!
Shallow embedding of `persistqueue/sqlqueue.py`: the SQLite-backed
FIFO / FILO / unique persistent queues and the MySQL variant's shared
engine logic.

The storage access layer (`persistqueue.sqlbase`) is not part of the
source tree; its operations are modelled from the spec (§4.1) together
with the SQL templates that ARE in the source (`_SQL_SELECT`,
`_SQL_SELECT_ID`, `_SQL_SELECT_WHERE`, `_SQL_DELETE`, `_SQL_UPDATE`,
`_SQL_INSERT`).  The serializer is an external collaborator with
contract `decode (encode x) = x`; it is modelled as the identity, so a
record's `data` field holds the payload itself.  Timestamps are opaque
naturals supplied to `put` as an explicit clock input.
-/

namespace PersistQueue

/-- A row of the queue table, per `_SQL_CREATE`:
`_id INTEGER PRIMARY KEY AUTOINCREMENT, data BLOB, timestamp FLOAT`. -/
structure Record (α : Type) where
  id : Nat
  data : α
  timestamp : Nat
deriving DecidableEq

/-- Modelled from the spec: the state of the backing table behind the
storage access layer (§4.1, `sqlbase`, not in the source tree).
`rows` is the table content in insertion order; `nextId` is the
AUTOINCREMENT counter: ids are assigned by the store, strictly
increasing, never reused (spec §3, first invariant). -/
structure Store (α : Type) where
  rows : List (Record α)
  nextId : Nat
deriving DecidableEq

/-- The tuple of columns a SELECT produces.  `_SQL_SELECT_ID` and
`_SQL_SELECT_WHERE` name three columns, so `timestamp` is present;
`FILOSQLiteQueue._SQL_SELECT` names only `{key_column}, data`, so for
that query the `timestamp` position is absent (`none`). -/
structure SelRow (α : Type) where
  id : Nat
  data : α
  timestamp : Option Nat
deriving DecidableEq

/-- View of a record through a three-column SELECT. -/
def Record.full {α : Type} (r : Record α) : SelRow α :=
  ⟨r.id, r.data, some r.timestamp⟩

/-- View of a record through FILO's two-column `_SQL_SELECT`:
the timestamp column is not selected. -/
def Record.noTs {α : Type} (r : Record α) : SelRow α :=
  ⟨r.id, r.data, none⟩

/-- The record of minimal id among `a :: l`; evaluation of
`ORDER BY {key_column} ASC LIMIT 1` over a non-empty result set. -/
def minById {α : Type} (a : Record α) (l : List (Record α)) : Record α :=
  l.foldl (fun x y => if y.id < x.id then y else x) a

/-- The record of maximal id among `a :: l`; evaluation of
`ORDER BY {key_column} DESC LIMIT 1` over a non-empty result set. -/
def maxById {α : Type} (a : Record α) (l : List (Record α)) : Record α :=
  l.foldl (fun x y => if x.id < y.id then y else x) a

/-- Rows satisfying `p`, ordered by id ascending, first one (SQL
`WHERE p ORDER BY {key_column} ASC LIMIT 1`). -/
def selectAscBy {α : Type} (p : Record α → Bool) (rows : List (Record α)) :
    Option (Record α) :=
  match rows.filter p with
  | [] => none
  | r :: rs => some (minById r rs)

/-- Rows satisfying `p`, ordered by id descending, first one (SQL
`WHERE p ORDER BY {key_column} DESC LIMIT 1`). -/
def selectDescBy {α : Type} (p : Record α → Bool) (rows : List (Record α)) :
    Option (Record α) :=
  match rows.filter p with
  | [] => none
  | r :: rs => some (maxById r rs)

/-- The three SQLite queue classes: `SQLiteQueue` (= `FIFOSQLiteQueue`),
`FILOSQLiteQueue`, `UniqueQ`.  They differ only in `_SQL_SELECT`
(FILO orders descending and omits the timestamp column) and in `put`
(the unique variant's table has `UNIQUE (data)`). -/
inductive Variant
  | fifo
  | filo
  | uniq
deriving DecidableEq

/-- Modelled from the spec: `count()` of §4.1 — the number of rows. -/
def Store.count {α : Type} (s : Store α) : Nat := s.rows.length

/-- Modelled from the spec: `insert(payload, timestamp) -> id` of §4.1
over `_SQL_INSERT`; the store assigns the next AUTOINCREMENT id. -/
def Store.insert {α : Type} (s : Store α) (x : α) (ts : Nat) :
    Store α × Nat :=
  (⟨s.rows ++ [⟨s.nextId, x, ts⟩], s.nextId + 1⟩, s.nextId)

/-- The variant's head SELECT (`_SQL_SELECT`): FIFO and unique order
ascending with three columns; FILO orders descending with only
`{key_column}, data`. -/
def Store.selectHead {α : Type} (v : Variant) (s : Store α) :
    Option (SelRow α) :=
  match v with
  | .filo => (selectDescBy (fun _ => true) s.rows).map Record.noTs
  | _ => (selectAscBy (fun _ => true) s.rows).map Record.full

/-- Modelled from the spec: `selectById` of §4.1 over `_SQL_SELECT_ID`. -/
def Store.selectById {α : Type} (s : Store α) (i : Nat) :
    Option (SelRow α) :=
  (s.rows.find? (fun r => r.id == i)).map Record.full

/-- The `_SQL_SELECT_WHERE` query with `column = {key_column}` and
`op = >`, as issued by the deferred-commit branch of `_pop`: the row of
smallest id strictly greater than the cursor. -/
def Store.selectGt {α : Type} (s : Store α) (c : Int) :
    Option (SelRow α) :=
  (selectAscBy (fun r => decide (c < (r.id : Int))) s.rows).map Record.full

/-- Modelled from the spec: the `_select` dispatch of the storage layer
(§4.1): an explicit rowid fetches exactly that row (`selectById`); a
cursor argument with `op = >` runs the ascending where-query
(`selectAfterCursor`); otherwise the variant's head SELECT runs. -/
def Store.select {α : Type} (v : Variant) (s : Store α) (cur : Option Int)
    (rowid : Option Nat) : Option (SelRow α) :=
  match rowid with
  | some i => s.selectById i
  | none =>
    match cur with
    | some c => s.selectGt c
    | none => s.selectHead v

/-- Modelled from the spec: `deleteById` of §4.1, `_SQL_DELETE` with
`op = =`. -/
def Store.deleteEq {α : Type} (s : Store α) (i : Nat) : Store α :=
  ⟨s.rows.filter (fun r => r.id != i), s.nextId⟩

/-- Modelled from the spec: `deleteUpTo(cursor)` of §4.1 (inclusive),
`_SQL_DELETE` with `op = <=`, as issued by `task_done`. -/
def Store.deleteLe {α : Type} (s : Store α) (c : Int) : Store α :=
  ⟨s.rows.filter (fun r => decide (c < (r.id : Int))), s.nextId⟩

/-- Modelled from the spec: `update(id, payload)` of §4.1 over
`_SQL_UPDATE`: overwrite the data column of the row with that id (a
no-op when no row has it). -/
def Store.updateData {α : Type} (s : Store α) (i : Nat) (x : α) : Store α :=
  ⟨s.rows.map (fun r => if r.id = i then { r with data := x } else r),
    s.nextId⟩

/-- The empty table, AUTOINCREMENT ids starting at 1. -/
def Store.empty {α : Type} : Store α := ⟨[], 1⟩

/-- Python exceptions the engine can raise on the paths modelled here.
`nameError` stands for `UnboundLocalError` (a local variable read
before any assignment), a subclass of Python's `NameError`. -/
inductive PyErr
  | indexError
  | nameError
  | valueError
deriving DecidableEq

/-- The dict `{'pqid': ..., 'data': ..., 'timestamp': ...}` returned by
`_pop` when `raw=True`. -/
structure RawRecord (α : Type) where
  pqid : Nat
  data : α
  timestamp : Nat
deriving DecidableEq

/-- What a successful dequeue hands back: the bare deserialized item,
or the raw dict. -/
inductive GetResult (α : Type)
  | item : α → GetResult α
  | raw : RawRecord α → GetResult α
deriving DecidableEq

/-- Per-handle queue state (`SQLiteQueue` instance attributes):
the backing store, `auto_commit`, the signed counter `total`, the
in-memory `cursor` (meaningful only when `auto_commit=False`) and the
producer wake signal `put_event`. -/
structure QueueState (α : Type) where
  store : Store α
  autoCommit : Bool
  total : Int
  cursor : Int
  putEvent : Bool
deriving DecidableEq

/-- SQLiteBase construction plus `SQLiteQueue._init`: create the table
if absent (idempotent — opening an existing store keeps its rows); when
`auto_commit=False`, recompute the cursor from the variant's head
SELECT (`head[0] - 1`, or `0` when the table is empty); set `total`
from `count()`. -/
def openQueue {α : Type} (v : Variant) (auto : Bool) (s : Store α) :
    QueueState α :=
  let cur : Int :=
    if auto then 0
    else
      match s.selectHead v with
      | some row => (row.id : Int) - 1
      | none => 0
  { store := s, autoCommit := auto, total := (s.count : Int),
    cursor := cur, putEvent := false }

/-- `SQLiteQueue._pop(rowid, raw)`.  In auto-commit mode: select (by
rowid when given, else the variant's head), delete the row, decrement
`total`, return the item (raw mode additionally reads the timestamp
column — position 2 of the row tuple, an `IndexError` when the SELECT
produced only two columns).  In deferred mode: select (by rowid when
given, else smallest id strictly above the cursor), set the cursor to
the row's id, decrement `total`, return the item without deleting.
The source's defensive guard for a `(None, None)` row — a store quirk
per the spec's design notes — cannot fire here, since the modelled
store only ever yields real rows. -/
def pop {α : Type} (v : Variant) (q : QueueState α) (rowid : Option Nat)
    (raw : Bool) : Except PyErr (QueueState α × Option (GetResult α)) :=
  if q.autoCommit then
    match q.store.select v none rowid with
    | some row =>
      let q2 : QueueState α :=
        { q with store := q.store.deleteEq row.id, total := q.total - 1 }
      if raw then
        match row.timestamp with
        | some ts => .ok (q2, some (.raw ⟨row.id, row.data, ts⟩))
        | none => .error .indexError
      else .ok (q2, some (.item row.data))
    | none => .ok (q, none)
  else
    match q.store.select v (some q.cursor) rowid with
    | some row =>
      let q2 : QueueState α :=
        { q with cursor := (row.id : Int), total := q.total - 1 }
      if raw then
        match row.timestamp with
        | some ts => .ok (q2, some (.raw ⟨row.id, row.data, ts⟩))
        | none => .error .indexError
      else .ok (q2, some (.item row.data))
    | none => .ok (q, none)

/-- The `id` argument of `get`: absent, a plain int, or a raw dict
carrying a `pqid` (anything else normalises to no rowid). -/
inductive IdArg
  | noId
  | intId (i : Nat)
  | rawId (pqid : Nat)
deriving DecidableEq

/-- The rowid `get` extracts from its `id` argument. -/
def IdArg.toRowid : IdArg → Option Nat
  | .noId => none
  | .intId i => some i
  | .rawId p => some p

/-- Outcome of a `get` call.  `emptyExc` is the `Empty` exception;
`invalidArg` is the `ValueError` for a negative timeout; `indexErr` is
the `IndexError` escaping from a raw-mode `_pop`; `blocked` models the
unbounded wait of `block=True, timeout=None` on a handle whose store
stays empty (no producer exists in this single-handle model, so every
re-poll of the wait loop returns nothing). -/
inductive GetOutcome (α : Type)
  | ok (q : QueueState α) (r : GetResult α)
  | emptyExc (q : QueueState α)
  | invalidArg (q : QueueState α)
  | indexErr
  | blocked (q : QueueState α)
deriving DecidableEq

/-- `SQLiteQueue.get(block, timeout, id, raw)`.  The wait loops of the
blocking branches are collapsed under the single-handle semantics:
`_pop` is a pure function of the state, so when the first attempt finds
nothing, every retry finds nothing — the no-timeout loop never returns
(`blocked`) and the timeout loop raises `Empty` once the wall-clock
deadline passes.  Note the branch order of the source: `block=False` is
tested first, so a negative timeout is only examined (and rejected)
when `block=True`. -/
def get {α : Type} (v : Variant) (q : QueueState α) (block : Bool)
    (timeout : Option Int) (idArg : IdArg) (raw : Bool) : GetOutcome α :=
  let rowid := idArg.toRowid
  if !block then
    match pop v q rowid raw with
    | .error _ => .indexErr
    | .ok (q2, some r) => .ok q2 r
    | .ok (q2, none) => .emptyExc q2
  else
    match timeout with
    | none =>
      match pop v q rowid raw with
      | .error _ => .indexErr
      | .ok (q2, some r) => .ok q2 r
      | .ok (q2, none) => .blocked q2
    | some t =>
      if t < 0 then .invalidArg q
      else
        match pop v q rowid raw with
        | .error _ => .indexErr
        | .ok (q2, some r) => .ok q2 r
        | .ok (q2, none) => .emptyExc q2

/-- `put(item)`: serialize, insert, increment `total`, set the wake
signal, return the assigned id.  `UniqueQ.put` additionally absorbs the
`IntegrityError` of the table's `UNIQUE (data)` constraint: when a row
with the same encoded payload is present, nothing is inserted, no
counter moves, no signal is set, and `None` is returned. -/
def put {α : Type} [DecidableEq α] (v : Variant) (q : QueueState α)
    (x : α) (ts : Nat) : QueueState α × Option Nat :=
  match v with
  | .uniq =>
    if q.store.rows.any (fun r => decide (r.data = x)) then (q, none)
    else
      let p := q.store.insert x ts
      ({ q with store := p.1, total := q.total + 1, putEvent := true },
        some p.2)
  | _ =>
    let p := q.store.insert x ts
    ({ q with store := p.1, total := q.total + 1, putEvent := true },
      some p.2)

/-- `task_done()`: nothing happens in auto-commit mode; in deferred
mode every row with id at most the cursor is deleted in one batch
(`_SQL_DELETE` with `op = <=`), then the transaction commits. -/
def task_done {α : Type} (q : QueueState α) : QueueState α :=
  if q.autoCommit then q
  else { q with store := q.store.deleteLe q.cursor }

/-- The `item` argument of `update`: a plain item, or a raw dict
containing the key `pqid` (whose value may be `None`) together with
the replacement payload under `data`. -/
inductive UpdItem (α : Type)
  | plain (x : α)
  | rawRec (pqid : Option Nat) (data : α)
deriving DecidableEq

/-- The payload `update` will store: the raw dict's `data` entry, or
the plain item itself. -/
def UpdItem.payload {α : Type} : UpdItem α → α
  | .plain x => x
  | .rawRec _ d => d

/-- `SQLiteQueue.update(item, id)`.  The local `_id` is assigned only
when `item` is a dict containing `pqid`, or when an explicit `id` is
passed; the guard `if _id is None` therefore raises
`UnboundLocalError` (`nameError`) when neither happened, and the
intended `ValueError` only when `_id` was assigned the value `None`.
With an id in hand, the row's data column is overwritten and the id is
returned. -/
def update {α : Type} (q : QueueState α) (item : UpdItem α)
    (id : Option Nat) : Except PyErr (QueueState α × Nat) :=
  let assigned : Option (Option Nat) :=
    match item with
    | .rawRec p _ => some p
    | .plain _ => none
  let assigned : Option (Option Nat) :=
    match id with
    | some i => some (some i)
    | none => assigned
  match assigned with
  | none => .error .nameError
  | some none => .error .valueError
  | some (some i) => .ok ({ q with store := q.store.updateData i item.payload }, i)

/-- The `size` property: the raw `total` counter, no clamping. -/
def QueueState.size {α : Type} (q : QueueState α) : Int := q.total

/-- `qsize()`: `max(0, self.size)`. -/
def QueueState.qsize {α : Type} (q : QueueState α) : Int :=
  max 0 q.size

/-- `empty()`: `self.size == 0`. -/
def QueueState.empty {α : Type} (q : QueueState α) : Bool :=
  decide (q.size = 0)

/-- A sequence of `put` calls, one per list element, all stamped with
the same clock value (timestamps never influence selection). -/
def putN {α : Type} [DecidableEq α] (v : Variant) (ts : Nat) :
    QueueState α → List α → QueueState α
  | q, [] => q
  | q, x :: xs => putN v ts (put v q x ts).1 xs

/-- A sequence of `n` non-raw, no-rowid dequeues, collecting the items
returned; it stops early on `Empty` (and on the unreachable raw-mode
error). -/
def getN {α : Type} (v : Variant) (q : QueueState α) :
    Nat → QueueState α × List α
  | 0 => (q, [])
  | n + 1 =>
    match pop v q none false with
    | .ok (q2, some (.item x)) =>
      let p := getN v q2 n
      (p.1, x :: p.2)
    | .ok (q2, _) => (q2, [])
    | .error _ => (q, [])

/-- The records a run of inserts starting at AUTOINCREMENT value `i`
produces: consecutive ids, the given payloads, one shared timestamp. -/
def recsFrom {α : Type} (i : Nat) (ts : Nat) : List α → List (Record α)
  | [] => []
  | x :: xs => ⟨i, x, ts⟩ :: recsFrom (i + 1) ts xs

/-- Concrete three-row table used to instantiate several witnesses. -/
def storeA : Store Nat := ⟨[⟨1, 10, 0⟩, ⟨2, 20, 0⟩, ⟨3, 30, 0⟩], 4⟩

/-- Concrete one-row table for the negative-total scenario. -/
def storeB : Store Nat := ⟨[⟨1, 5, 0⟩], 2⟩

/-- The state after a deferred-mode handle on `storeB` ran
`get(id=1)` once: the row is still present, the cursor is 1. -/
def qMidB : QueueState Nat :=
  { store := storeB, autoCommit := false, total := 0, cursor := 1,
    putEvent := false }

/-- The state after a second `get(id=1)` on the same handle: the row is
still present and `total` has been decremented below zero. -/
def qNegB : QueueState Nat := { qMidB with total := -1 }

/-- A deferred-mode handle on `storeA` whose cursor has advanced to 2
(two records consumed, none acknowledged). -/
def qDefA : QueueState Nat :=
  { store := storeA, autoCommit := false, total := 1, cursor := 2,
    putEvent := false }

/-- The state a fresh deferred handle on `storeA` reaches after
`get(id=2)`: cursor 2, nothing deleted. -/
def qAfterId2 : QueueState Nat :=
  { store := storeA, autoCommit := false, total := 2, cursor := 2,
    putEvent := false }

theorem minById_mem {α : Type} (a : Record α) (l : List (Record α)) :
    minById a l ∈ a :: l := by
  induction l generalizing a with
  | nil => exact List.mem_singleton.mpr rfl
  | cons b t ih =>
    have hstep : minById a (b :: t) = minById (if b.id < a.id then b else a) t := rfl
    rw [hstep]
    rcases List.mem_cons.mp (ih (if b.id < a.id then b else a)) with h | h
    · rw [h]
      by_cases hb : b.id < a.id
      · simp [hb]
      · simp [hb]
    · exact List.mem_cons_of_mem a (List.mem_cons_of_mem b h)

theorem minById_le {α : Type} (a : Record α) (l : List (Record α)) :
    (minById a l).id ≤ a.id ∧ ∀ b ∈ l, (minById a l).id ≤ b.id := by
  induction l generalizing a with
  | nil => exact ⟨le_refl _, by simp⟩
  | cons b t ih =>
    have hstep : minById a (b :: t) = minById (if b.id < a.id then b else a) t := rfl
    obtain ⟨h1, h2⟩ := ih (if b.id < a.id then b else a)
    rw [hstep]
    constructor
    · refine le_trans h1 ?_
      by_cases hb : b.id < a.id
      · simp [hb]; omega
      · simp [hb]
    · intro c hc
      rcases List.mem_cons.mp hc with h | h
      · subst h
        refine le_trans h1 ?_
        by_cases hb : c.id < a.id
        · simp [hb]
        · simp [hb]; omega
      · exact h2 c h

theorem minById_of_le {α : Type} (a : Record α) (l : List (Record α))
    (h : ∀ b ∈ l, a.id ≤ b.id) : minById a l = a := by
  induction l generalizing a with
  | nil => rfl
  | cons b t ih =>
    have hstep : minById a (b :: t) = minById (if b.id < a.id then b else a) t := rfl
    have hb : a.id ≤ b.id := h b (List.mem_cons_self b t)
    have hif : (if b.id < a.id then b else a) = a := by
      rw [if_neg]; omega
    rw [hstep, hif]
    exact ih a (fun c hc => h c (List.mem_cons_of_mem b hc))

theorem maxById_mem {α : Type} (a : Record α) (l : List (Record α)) :
    maxById a l ∈ a :: l := by
  induction l generalizing a with
  | nil => exact List.mem_singleton.mpr rfl
  | cons b t ih =>
    have hstep : maxById a (b :: t) = maxById (if a.id < b.id then b else a) t := rfl
    rw [hstep]
    rcases List.mem_cons.mp (ih (if a.id < b.id then b else a)) with h | h
    · rw [h]
      by_cases hb : a.id < b.id
      · simp [hb]
      · simp [hb]
    · exact List.mem_cons_of_mem a (List.mem_cons_of_mem b h)

theorem selectAscBy_spec {α : Type} {p : Record α → Bool}
    {rows : List (Record α)} {r : Record α}
    (h : selectAscBy p rows = some r) :
    r ∈ rows ∧ p r = true ∧ ∀ x ∈ rows, p x = true → r.id ≤ x.id := by
  unfold selectAscBy at h
  cases hf : rows.filter p with
  | nil => rw [hf] at h; exact absurd h (by simp)
  | cons a t =>
    rw [hf] at h
    simp only [Option.some.injEq] at h
    have hmem : r ∈ a :: t := h ▸ minById_mem a t
    rw [← hf] at hmem
    obtain ⟨hr, hp⟩ := List.mem_filter.mp hmem
    refine ⟨hr, hp, ?_⟩
    intro x hx hpx
    have hxf : x ∈ a :: t := by
      rw [← hf]; exact List.mem_filter.mpr ⟨hx, hpx⟩
    obtain ⟨h1, h2⟩ := minById_le a t
    rcases List.mem_cons.mp hxf with h' | h'
    · rw [← h, h']; exact h1
    · rw [← h]; exact h2 x h'

theorem selectDescBy_mem {α : Type} {p : Record α → Bool}
    {rows : List (Record α)} {r : Record α}
    (h : selectDescBy p rows = some r) : r ∈ rows := by
  unfold selectDescBy at h
  cases hf : rows.filter p with
  | nil => rw [hf] at h; exact absurd h (by simp)
  | cons a t =>
    rw [hf] at h
    simp only [Option.some.injEq] at h
    have hmem : r ∈ a :: t := h ▸ maxById_mem a t
    rw [← hf] at hmem
    exact (List.mem_filter.mp hmem).1

theorem select_rowid {α : Type} (v : Variant) (s : Store α)
    (cur : Option Int) (i : Nat) :
    Store.select v s cur (some i) = s.selectById i := rfl

theorem select_cursor {α : Type} (v : Variant) (s : Store α) (c : Int) :
    Store.select v s (some c) none = s.selectGt c := rfl

theorem select_head {α : Type} (v : Variant) (s : Store α) :
    Store.select v s none none = s.selectHead v := rfl

theorem selectGt_spec {α : Type} {s : Store α} {c : Int} {row : SelRow α}
    (h : s.selectGt c = some row) :
    ∃ rec ∈ s.rows, row = rec.full ∧ c < (rec.id : Int) ∧
      ∀ rec2 ∈ s.rows, c < (rec2.id : Int) → rec.id ≤ rec2.id := by
  unfold Store.selectGt at h
  cases hsel : selectAscBy (fun r => decide (c < (r.id : Int))) s.rows with
  | none => rw [hsel] at h; exact absurd h (by simp)
  | some rec =>
    rw [hsel] at h
    simp only [Option.map_some', Option.some.injEq] at h
    obtain ⟨hm, hp, hmin⟩ := selectAscBy_spec hsel
    refine ⟨rec, hm, h.symm, of_decide_eq_true hp, ?_⟩
    intro rec2 h2 hlt
    exact hmin rec2 h2 (decide_eq_true hlt)

theorem selectHead_mem {α : Type} {v : Variant} {s : Store α}
    {row : SelRow α} (h : Store.selectHead v s = some row) :
    ∃ rec ∈ s.rows, row.id = rec.id := by
  cases v with
  | filo =>
    unfold Store.selectHead at h
    cases hsel : selectDescBy (fun _ => true) s.rows with
    | none => rw [hsel] at h; exact absurd h (by simp)
    | some rec =>
      rw [hsel] at h
      simp only [Option.map_some', Option.some.injEq] at h
      exact ⟨rec, selectDescBy_mem hsel, by rw [← h]; rfl⟩
  | fifo =>
    unfold Store.selectHead at h
    cases hsel : selectAscBy (fun _ => true) s.rows with
    | none => rw [hsel] at h; exact absurd h (by simp)
    | some rec =>
      rw [hsel] at h
      simp only [Option.map_some', Option.some.injEq] at h
      exact ⟨rec, (selectAscBy_spec hsel).1, by rw [← h]; rfl⟩
  | uniq =>
    unfold Store.selectHead at h
    cases hsel : selectAscBy (fun _ => true) s.rows with
    | none => rw [hsel] at h; exact absurd h (by simp)
    | some rec =>
      rw [hsel] at h
      simp only [Option.map_some', Option.some.injEq] at h
      exact ⟨rec, (selectAscBy_spec hsel).1, by rw [← h]; rfl⟩

theorem select_mem {α : Type} {v : Variant} {s : Store α}
    {cur : Option Int} {rowid : Option Nat} {row : SelRow α}
    (h : Store.select v s cur rowid = some row) :
    ∃ rec ∈ s.rows, row.id = rec.id := by
  cases rowid with
  | some i =>
    rw [select_rowid] at h
    unfold Store.selectById at h
    cases hf : s.rows.find? (fun r => r.id == i) with
    | none => rw [hf] at h; exact absurd h (by simp)
    | some rec =>
      rw [hf] at h
      simp only [Option.map_some', Option.some.injEq] at h
      exact ⟨rec, List.mem_of_find?_eq_some hf, by rw [← h]; rfl⟩
  | none =>
    cases cur with
    | some c =>
      rw [select_cursor] at h
      obtain ⟨rec, hm, hrow, _, _⟩ := selectGt_spec h
      exact ⟨rec, hm, by rw [hrow]; rfl⟩
    | none => exact selectHead_mem h

theorem recsFrom_length {α : Type} (i ts : Nat) (xs : List α) :
    (recsFrom i ts xs).length = xs.length := by
  induction xs generalizing i with
  | nil => rfl
  | cons x t ih => simp [recsFrom, ih]

theorem recsFrom_map {α : Type} (i ts : Nat) (xs : List α) :
    (recsFrom i ts xs).map (fun r => r.data) = xs := by
  induction xs generalizing i with
  | nil => rfl
  | cons x t ih => simp [recsFrom, ih]

theorem recsFrom_ge {α : Type} (i ts : Nat) (xs : List α) :
    ∀ r ∈ recsFrom i ts xs, i ≤ r.id := by
  induction xs generalizing i with
  | nil => simp [recsFrom]
  | cons x t ih =>
    intro r hr
    rcases List.mem_cons.mp hr with h | h
    · rw [h]
    · exact le_trans (Nat.le_succ i) (ih (i + 1) r h)

theorem recsFrom_pairwise {α : Type} (i ts : Nat) (xs : List α) :
    (recsFrom i ts xs).Pairwise (fun a b => a.id < b.id) := by
  induction xs generalizing i with
  | nil => exact List.Pairwise.nil
  | cons x t ih =>
    refine List.pairwise_cons.mpr ⟨?_, ih (i + 1)⟩
    intro r hr
    exact lt_of_lt_of_le (Nat.lt_succ_self i) (recsFrom_ge (i + 1) ts t r hr)

theorem putN_fifo_store {α : Type} [DecidableEq α] (ts : Nat)
    (q : QueueState α) (xs : List α) :
    (putN .fifo ts q xs).store =
      ⟨q.store.rows ++ recsFrom q.store.nextId ts xs,
        q.store.nextId + xs.length⟩ := by
  induction xs generalizing q with
  | nil => simp [putN, recsFrom]
  | cons x t ih =>
    show (putN .fifo ts (put .fifo q x ts).1 t).store = _
    rw [ih]
    simp only [put, Store.insert]
    simp [recsFrom, Store.mk.injEq, List.append_assoc]
    omega

theorem putN_fifo_total {α : Type} [DecidableEq α] (ts : Nat)
    (q : QueueState α) (xs : List α) :
    (putN .fifo ts q xs).total = q.total + xs.length := by
  induction xs generalizing q with
  | nil => simp [putN]
  | cons x t ih =>
    show (putN .fifo ts (put .fifo q x ts).1 t).total = _
    rw [ih]
    simp only [put, Store.insert, List.length_cons]
    push_cast
    ring

theorem putN_fifo_auto {α : Type} [DecidableEq α] (ts : Nat)
    (q : QueueState α) (xs : List α) :
    (putN .fifo ts q xs).autoCommit = q.autoCommit := by
  induction xs generalizing q with
  | nil => rfl
  | cons x t ih =>
    show (putN .fifo ts (put .fifo q x ts).1 t).autoCommit = _
    rw [ih]
    rfl

theorem pop_auto_fifo_cons {α : Type} [DecidableEq α] (q : QueueState α)
    (r : Record α) (rs : List (Record α))
    (hauto : q.autoCommit = true)
    (hrows : q.store.rows = r :: rs)
    (hmin : ∀ b ∈ rs, r.id < b.id) :
    pop .fifo q none false =
      .ok ({ q with store := ⟨rs, q.store.nextId⟩, total := q.total - 1 },
        some (.item r.data)) := by
  have hfilter : (r :: rs).filter (fun _ => true) = r :: rs := by
    simp
  have hsel : q.store.selectHead .fifo = some r.full := by
    unfold Store.selectHead selectAscBy
    rw [hrows, hfilter]
    simp only [Option.map_some']
    rw [minById_of_le r rs (fun b hb => le_of_lt (hmin b hb))]
  have hdel : q.store.deleteEq r.id = ⟨rs, q.store.nextId⟩ := by
    unfold Store.deleteEq
    rw [hrows]
    simp only [Store.mk.injEq, and_true]
    rw [List.filter_cons]
    simp only [bne_self_eq_false]
    rw [if_neg (by simp)]
    apply List.filter_eq_self.mpr
    intro b hb
    simp only [bne_iff_ne, ne_eq]
    exact fun heq => absurd (heq ▸ hmin b hb) (lt_irrefl _)
  unfold pop
  rw [hauto]
  simp only [if_true]
  rw [select_head, hsel]
  simp only [Bool.false_eq_true, if_false]
  rw [show (r.full).id = r.id from rfl, hdel]
  rfl

theorem getN_auto_sorted {α : Type} [DecidableEq α]
    (L : List (Record α)) :
    ∀ q : QueueState α, q.autoCommit = true → q.store.rows = L →
    L.Pairwise (fun a b => a.id < b.id) →
    (getN .fifo q L.length).2 = L.map (fun r => r.data) ∧
    (getN .fifo q L.length).1.total = q.total - L.length := by
  induction L with
  | nil =>
    intro q _ _ _
    simp [getN]
  | cons r rs ih =>
    intro q hauto hrows hp
    have hmin : ∀ b ∈ rs, r.id < b.id := by
      intro b hb
      exact (List.pairwise_cons.mp hp).1 b hb
    have hpop := pop_auto_fifo_cons q r rs hauto hrows hmin
    obtain ⟨ih1, ih2⟩ :=
      ih { q with store := ⟨rs, q.store.nextId⟩, total := q.total - 1 }
        hauto rfl (List.pairwise_cons.mp hp).2
    constructor
    · show (getN .fifo q (rs.length + 1)).2 = _
      rw [getN, hpop]
      simp only [List.map_cons]
      rw [ih1]
    · show (getN .fifo q (rs.length + 1)).1.total = _
      rw [getN, hpop]
      simp only []
      rw [ih2]
      simp only [List.length_cons]
      push_cast
      ring

theorem pop_deferred_keeps_store {α : Type} [DecidableEq α]
    {v : Variant} {q q2 : QueueState α} {rowid : Option Nat} {raw : Bool}
    {r : GetResult α}
    (hauto : q.autoCommit = false)
    (h : pop v q rowid raw = .ok (q2, some r)) :
    q2.store = q.store := by
  unfold pop at h
  rw [hauto] at h
  simp only [Bool.false_eq_true, if_false] at h
  cases hsel : q.store.select v (some q.cursor) rowid with
  | none =>
    rw [hsel] at h
    simp at h
  | some row =>
    rw [hsel] at h
    cases raw with
    | false =>
      simp only [Bool.false_eq_true, if_false, Except.ok.injEq,
        Prod.mk.injEq] at h
      rw [← h.1]
    | true =>
      simp only [if_true] at h
      cases hts : row.timestamp with
      | none => rw [hts] at h; simp at h
      | some ts =>
        rw [hts] at h
        simp only [Except.ok.injEq, Prod.mk.injEq] at h
        rw [← h.1]

theorem task_done_deferred_rows {α : Type} (q : QueueState α)
    (h : q.autoCommit = false) :
    (task_done q).store.rows =
      q.store.rows.filter (fun r => decide (q.cursor < (r.id : Int))) := by
  unfold task_done
  rw [h]
  simp only [Bool.false_eq_true, if_false]
  rfl

/-- C1: In deferred-commit mode (`auto_commit=False`), a dequeue selects
the present row of smallest id strictly greater than the in-memory
cursor; when such a row exists it sets the cursor to that row's id and
returns the deserialized payload without deleting the row (the store,
hence the row, stays in place until `task_done`).  The quantification
over `Variant` covers every queue class supporting deferred-commit
mode: the three SQLite classes share `_pop` and `_SQL_SELECT_WHERE`,
while `MySQLQueue`'s constructor exposes no `auto_commit` choice. -/
theorem c1_deferred_get_min_above_cursor {α : Type} [DecidableEq α]
    (v : Variant) (q : QueueState α) (row : SelRow α)
    (hauto : q.autoCommit = false)
    (hsel : q.store.selectGt q.cursor = some row) :
    pop v q none false =
      .ok ({ q with cursor := (row.id : Int), total := q.total - 1 },
        some (.item row.data)) ∧
    (∃ rec ∈ q.store.rows, row = rec.full ∧ q.cursor < (rec.id : Int) ∧
      ∀ rec2 ∈ q.store.rows, q.cursor < (rec2.id : Int) →
        rec.id ≤ rec2.id) := by
  constructor
  · unfold pop
    rw [hauto]
    simp only [Bool.false_eq_true, if_false]
    rw [select_cursor, hsel]
  · exact selectGt_spec hsel

/-- Witness for C1 at a concrete deferred FIFO handle over `storeA`:
the fresh cursor is 0, the selected row is id 1 with payload 10. -/
theorem c1_deferred_get_min_above_cursor_witness :
    pop .fifo (openQueue .fifo false storeA) none false =
      .ok ({ store := storeA, autoCommit := false, total := 2, cursor := 1,
             putEvent := false }, some (.item 10)) ∧
    (∃ rec ∈ (openQueue .fifo false storeA).store.rows,
      (⟨1, 10, some 0⟩ : SelRow Nat) = rec.full ∧
      (openQueue .fifo false storeA).cursor < (rec.id : Int) ∧
      ∀ rec2 ∈ (openQueue .fifo false storeA).store.rows,
        (openQueue .fifo false storeA).cursor < (rec2.id : Int) →
          rec.id ≤ rec2.id) :=
  c1_deferred_get_min_above_cursor .fifo (openQueue .fifo false storeA)
    ⟨1, 10, some 0⟩ (by rfl) (by rfl)

/-- C2: Opening a deferred-commit handle recomputes state from the
store — the cursor becomes the head record's id minus one (0 on an
empty store) and `total` comes from `count()` — and a record returned
by `get` without `task_done` is replayed: the deferred dequeue leaves
the store untouched, so a fresh handle opened against the resulting
store returns the very same record on its next `get`. -/
theorem c2_reopen_replays_unacked {α : Type} [DecidableEq α]
    (v : Variant) (s : Store α) (q2 : QueueState α) (res : GetResult α)
    (h : pop v (openQueue v false s) none false = .ok (q2, some res)) :
    (openQueue v false s).total = (s.count : Int) ∧
    (openQueue v false s).cursor =
      (match s.selectHead v with
        | some row => (row.id : Int) - 1
        | none => 0) ∧
    q2.store = s ∧
    pop v (openQueue v false q2.store) none false = .ok (q2, some res) := by
  have hst : q2.store = s := pop_deferred_keeps_store rfl h
  refine ⟨rfl, rfl, hst, ?_⟩
  rw [hst]
  exact h

/-- Witness for C2 at `storeB` (one row, id 1, payload 5): the first
deferred get returns payload 5 leaving the store intact, and a handle
reopened on that store returns payload 5 again. -/
theorem c2_reopen_replays_unacked_witness :
    (openQueue .fifo false storeB).total = (storeB.count : Int) ∧
    (openQueue .fifo false storeB).cursor =
      (match storeB.selectHead .fifo with
        | some row => (row.id : Int) - 1
        | none => 0) ∧
    qMidB.store = storeB ∧
    pop .fifo (openQueue .fifo false qMidB.store) none false =
      .ok (qMidB, some (.item 5)) :=
  c2_reopen_replays_unacked .fifo storeB qMidB (.item 5) (by rfl)

/-- C5: On a FIFO queue with `auto_commit=True` opened over an empty
store, any sequence of `n` puts followed by `n` gets returns the items
in insertion order, and `size` is 0 after the last get. -/
theorem c5_fifo_roundtrip {α : Type} [DecidableEq α] (xs : List α)
    (ts : Nat) :
    (getN .fifo (putN .fifo ts (openQueue .fifo true Store.empty) xs)
      xs.length).2 = xs ∧
    QueueState.size
      (getN .fifo (putN .fifo ts (openQueue .fifo true Store.empty) xs)
        xs.length).1 = 0 := by
  have hstore := putN_fifo_store ts (openQueue .fifo true (Store.empty : Store α)) xs
  have htotal := putN_fifo_total ts (openQueue .fifo true (Store.empty : Store α)) xs
  have hauto' := putN_fifo_auto ts (openQueue .fifo true (Store.empty : Store α)) xs
  have hrows : (putN .fifo ts (openQueue .fifo true (Store.empty : Store α)) xs).store.rows
      = recsFrom 1 ts xs := by
    rw [hstore]
    exact List.nil_append _
  have hA : (putN .fifo ts (openQueue .fifo true (Store.empty : Store α)) xs).autoCommit
      = true := by
    rw [hauto']
    rfl
  have hT : (putN .fifo ts (openQueue .fifo true (Store.empty : Store α)) xs).total
      = (xs.length : Int) := by
    have h0 : (openQueue .fifo true (Store.empty : Store α)).total = 0 := rfl
    rw [htotal, h0, zero_add]
  obtain ⟨h1, h2⟩ := getN_auto_sorted (recsFrom 1 ts xs) _ hA hrows
    (recsFrom_pairwise 1 ts xs)
  rw [recsFrom_length] at h1 h2
  constructor
  · rw [h1, recsFrom_map]
  · show (getN .fifo (putN .fifo ts (openQueue .fifo true Store.empty) xs)
      xs.length).1.total = 0
    rw [h2, hT]
    simp

/-- C3: `task_done` does nothing when `auto_commit=True`; when
`auto_commit=False` it deletes in one batch exactly the rows with id at
most the current cursor, leaving every row with a greater id present —
so every SELECT the engine can issue against the resulting store (any
variant's head SELECT, by-id SELECT or above-cursor SELECT, i.e. the
first step of any subsequent `get`) only ever produces rows whose id
exceeds the consumed cursor. -/
theorem c3_task_done_batch_delete {α : Type} [DecidableEq α]
    (q : QueueState α) :
    (q.autoCommit = true → task_done q = q) ∧
    (q.autoCommit = false →
      ((∀ r : Record α, r ∈ (task_done q).store.rows ↔
        (r ∈ q.store.rows ∧ q.cursor < (r.id : Int))) ∧
      (∀ (v : Variant) (cur : Option Int) (rowid : Option Nat)
        (row : SelRow α),
        Store.select v (task_done q).store cur rowid = some row →
        ∃ rec ∈ q.store.rows, row.id = rec.id ∧
          q.cursor < (rec.id : Int)))) := by
  constructor
  · intro h
    unfold task_done
    rw [h]
    simp
  · intro h
    have hrows := task_done_deferred_rows q h
    constructor
    · intro r
      rw [hrows, List.mem_filter]
      simp only [decide_eq_true_eq]
    · intro v cur rowid row hs
      obtain ⟨rec, hm, hid⟩ := select_mem hs
      rw [hrows] at hm
      obtain ⟨hm2, hp⟩ := List.mem_filter.mp hm
      exact ⟨rec, hm2, hid, of_decide_eq_true hp⟩

/-- Witness for C3: an auto-commit handle is unchanged by `task_done`;
on the deferred handle `qDefA` (cursor 2 over the three-row `storeA`)
the surviving rows are exactly those of id above 2, and every SELECT on
the result yields ids above 2. -/
theorem c3_task_done_batch_delete_witness :
    task_done (openQueue .fifo true storeA) = openQueue .fifo true storeA ∧
    (∀ r : Record Nat, r ∈ (task_done qDefA).store.rows ↔
      (r ∈ qDefA.store.rows ∧ qDefA.cursor < (r.id : Int))) ∧
    (∀ (v : Variant) (cur : Option Int) (rowid : Option Nat)
      (row : SelRow Nat),
      Store.select v (task_done qDefA).store cur rowid = some row →
      ∃ rec ∈ qDefA.store.rows, row.id = rec.id ∧
        qDefA.cursor < (rec.id : Int)) :=
  ⟨(c3_task_done_batch_delete (openQueue .fifo true storeA)).1 rfl,
    ((c3_task_done_batch_delete qDefA).2 rfl).1,
    ((c3_task_done_batch_delete qDefA).2 rfl).2⟩

/-- C4: `UniqueQ.put` of a payload already present among the rows
inserts nothing, returns `None`, leaves the state — `total`, hence
`size`, and the wake signal — entirely unchanged, and raises nothing
(the constraint violation is absorbed); a `put` of a payload not
present behaves exactly like the normal FIFO insert. -/
theorem c4_unique_put_dedup {α : Type} [DecidableEq α]
    (q : QueueState α) (x : α) (ts : Nat) :
    ((∃ r ∈ q.store.rows, r.data = x) → put .uniq q x ts = (q, none)) ∧
    ((¬ ∃ r ∈ q.store.rows, r.data = x) →
      put .uniq q x ts = put .fifo q x ts) := by
  have hiff : q.store.rows.any (fun r => decide (r.data = x)) = true ↔
      ∃ r ∈ q.store.rows, r.data = x := by
    rw [List.any_eq_true]
    constructor
    · rintro ⟨r, hr, hp⟩
      exact ⟨r, hr, of_decide_eq_true hp⟩
    · rintro ⟨r, hr, hp⟩
      exact ⟨r, hr, decide_eq_true hp⟩
  constructor
  · intro h
    unfold put
    rw [if_pos (hiff.mpr h)]
  · intro h
    unfold put
    rw [if_neg (fun hc => h (hiff.mp hc))]

/-- Witness for C4 on a unique handle over `storeA`: putting the
already-present payload 20 returns the handle unchanged with no id;
putting the absent payload 40 coincides with the FIFO insert. -/
theorem c4_unique_put_dedup_witness :
    put .uniq (openQueue .uniq true storeA) 20 9 =
      (openQueue .uniq true storeA, none) ∧
    put .uniq (openQueue .uniq true storeA) 40 9 =
      put .fifo (openQueue .uniq true storeA) 40 9 :=
  ⟨(c4_unique_put_dedup (openQueue .uniq true storeA) 20 9).1 (by decide),
    (c4_unique_put_dedup (openQueue .uniq true storeA) 40 9).2 (by decide)⟩

/-- C10: In deferred-commit mode, a `get` given an explicit id that
finds its row sets the cursor to that id (whatever the cursor was), so
an immediately following `task_done` deletes every row of id at most
that id — including rows this handle never returned. -/
theorem c10_explicit_id_moves_cursor {α : Type} [DecidableEq α]
    (v : Variant) (q : QueueState α) (i : Nat) (row : SelRow α)
    (hauto : q.autoCommit = false)
    (hsel : q.store.selectById i = some row) :
    pop v q (some i) false =
      .ok ({ q with cursor := (row.id : Int), total := q.total - 1 },
        some (.item row.data)) ∧
    (∀ r ∈ q.store.rows, (r.id : Int) ≤ (row.id : Int) →
      r ∉ (task_done { q with
        cursor := (row.id : Int),
        total := q.total - 1 }).store.rows) ∧
    (∀ r : Record α,
      r ∈ (task_done { q with
        cursor := (row.id : Int),
        total := q.total - 1 }).store.rows ↔
      (r ∈ q.store.rows ∧ (row.id : Int) < (r.id : Int))) := by
  have hrows := task_done_deferred_rows
    { q with cursor := (row.id : Int), total := q.total - 1 } hauto
  refine ⟨?_, ?_, ?_⟩
  · unfold pop
    rw [hauto]
    simp only [Bool.false_eq_true, if_false]
    rw [select_rowid, hsel]
  · intro r hr hle hmem
    rw [hrows] at hmem
    obtain ⟨_, hp⟩ := List.mem_filter.mp hmem
    have h2 : (row.id : Int) < (r.id : Int) := of_decide_eq_true hp
    omega
  · intro r
    rw [hrows, List.mem_filter]
    simp only [decide_eq_true_eq]

/-- Witness for C10 on a fresh deferred handle over `storeA`:
`get(id=2)` returns payload 20 and sets the cursor to 2; `task_done`
then removes rows 1 and 2 — row 1 was never returned by any get. -/
theorem c10_explicit_id_moves_cursor_witness :
    pop .fifo (openQueue .fifo false storeA) (some 2) false =
      .ok (qAfterId2, some (.item 20)) ∧
    (∀ r ∈ (openQueue .fifo false storeA).store.rows,
      (r.id : Int) ≤ ((2 : Nat) : Int) →
      r ∉ (task_done qAfterId2).store.rows) ∧
    (∀ r : Record Nat,
      r ∈ (task_done qAfterId2).store.rows ↔
      (r ∈ (openQueue .fifo false storeA).store.rows ∧
        ((2 : Nat) : Int) < (r.id : Int))) :=
  c10_explicit_id_moves_cursor .fifo (openQueue .fifo false storeA) 2
    ⟨2, 20, some 0⟩ (by rfl) (by rfl)

/-- C6 counterexample: with `block=False` and `timeout=-1` on a
non-empty auto-commit queue, `get` does not fail with the
invalid-argument error — the source tests `not block` before ever
inspecting the timeout — and it consumes the head record (id 1 is
deleted from the store). -/
theorem c6_counterexample_nonblocking_ignores_timeout :
    get .fifo (openQueue .fifo true storeA) false (some (-1)) .noId false =
      .ok { store := ⟨[⟨2, 20, 0⟩, ⟨3, 30, 0⟩], 4⟩, autoCommit := true,
            total := 2, cursor := 0, putEvent := false } (.item 10) := by
  rfl

/-- C6 (amended): a `get` with a negative timeout fails with the
invalid-argument error — leaving the state untouched — whenever
`block=True`; with `block=False` the timeout is never examined. -/
theorem c6_amended_negative_timeout {α : Type} [DecidableEq α]
    (v : Variant) (q : QueueState α) (t : Int) (idArg : IdArg)
    (raw : Bool) (h : t < 0) :
    get v q true (some t) idArg raw = .invalidArg q := by
  unfold get
  simp [h]

/-- Witness for the amended C6: `get(block=True, timeout=-1)` on an
auto-commit handle over `storeA` raises the invalid-argument error with
the handle unchanged. -/
theorem c6_amended_negative_timeout_witness :
    (-1 : Int) < 0 ∧
    get .fifo (openQueue .fifo true storeA) true (some (-1)) .noId false =
      .invalidArg (openQueue .fifo true storeA) :=
  ⟨by decide, c6_amended_negative_timeout .fifo (openQueue .fifo true storeA)
    (-1) .noId false (by decide)⟩

/-- C7 (code bug): `update` with a plain item and no explicit id reads
the local `_id` before any assignment — an `UnboundLocalError`
(`nameError` here), not the `ValueError` that its own message
`Provide an id or raw item` intends for exactly this case. -/
theorem c7_update_plain_no_id_unbound_local :
    update (openQueue .fifo true storeA) (.plain (99 : Nat)) none =
      .error .nameError := by
  rfl

/-- C8 (code bug): on a FILO queue in auto-commit mode, a raw-mode get
selects the head through FILO's two-column `_SQL_SELECT` and then reads
the timestamp position that SELECT did not produce: an `IndexError`
instead of the promised `{id, payload, timestamp}` record. -/
theorem c8_filo_raw_get_index_error :
    pop .filo (openQueue .filo true storeA) none true =
      .error .indexError := by
  rfl

/-- C9 counterexample: a reachable handle state with `total = -1`
(deferred handle over the one-row `storeB`; `get(id=1)` issued twice —
the row is selected by id each time, never deleted, and `total` is
decremented past zero).  There `size` returns `-1`, not the clamp
`max(0, total) = 0`, and `empty` returns `False` although the clamped
size is 0. -/
theorem c9_counterexample_size_unclamped :
    pop .fifo (openQueue .fifo false storeB) (some 1) false =
      .ok (qMidB, some (.item 5)) ∧
    pop .fifo qMidB (some 1) false = .ok (qNegB, some (.item 5)) ∧
    QueueState.size qNegB = -1 ∧
    max 0 qNegB.total = 0 ∧
    QueueState.qsize qNegB = 0 ∧
    QueueState.empty qNegB = false :=
  ⟨rfl, rfl, rfl, rfl, rfl, rfl⟩

/-- C9 (amended): `qsize` returns the clamp `max(0, total)`; `size`
returns `total` itself, which can be negative; `empty` tests
`total == 0`, so it is `False` on a negative total even though the
clamped size is 0. -/
theorem c9_amended_accessors {α : Type} (q : QueueState α) :
    QueueState.size q = q.total ∧
    QueueState.qsize q = max 0 q.total ∧
    (QueueState.empty q = true ↔ q.total = 0) := by
  refine ⟨rfl, rfl, ?_⟩
  unfold QueueState.empty QueueState.size
  exact decide_eq_true_iff

end PersistQueue
